import Mathlib

/-!
Verification development for the catdoc indexing-and-pipeline core.

The definitions below are a shallow embedding of the TypeScript sources
`source/services/treesitter.ts` and `source/services/DocManager.ts`:
pure functions become Lean functions, filesystem state is passed
explicitly (a path-indexed map or an explicit directory tree), and the
MD5 content hash is abstracted as a function parameter `hf` (the code
only compares hashes for equality).  JavaScript objects used as maps are
modelled as association lists with JS-object key semantics (at most one
entry per key, insertion order preserved, update in place).
-/

/-- Character-level string helpers.  Lean 4.14 strings are lists of
characters, so these definitions reduce inside the kernel; they mirror
the JS string operations used by the source. -/
def strEndsWith (s post : String) : Bool := List.isSuffixOf post.data s.data

def strStartsWith (s pre : String) : Bool := List.isPrefixOf pre.data s.data

/-- JS `String.prototype.toLowerCase` restricted to ASCII, as applied to
file extensions by the source. -/
def lowerStr (s : String) : String := String.mk (s.data.map Char.toLower)

/-- Split a string on a separator character; JS `s.split(c)` semantics
(`"".split` gives `[""]`). -/
def splitOnChar (c : Char) (s : String) : List String :=
  (s.data.foldr
    (fun ch acc =>
      match acc with
      | h :: t => if ch == c then [] :: h :: t else (ch :: h) :: t
      | [] => [[ch]])
    [[]]).map String.mk

/-- `path.basename`: the final segment of a forward-slash path. -/
def basenameStr (p : String) : String :=
  ((splitOnChar '/' p).getLast?).getD ""

/-- `path.extname` (Node semantics): the suffix of the basename from its
last dot, `""` when the basename has no dot or only a leading dot. -/
def extname (p : String) : String :=
  let base := (((splitOnChar '/' p).getLast?).getD "").data
  let tail := base.reverse.takeWhile (fun ch => ch != '.')
  if tail.length == base.length then ""
  else if base.length - tail.length - 1 == 0 then ""
  else String.mk ('.' :: tail.reverse)

/-- Join path segments with forward slashes (`path.join` on already
clean segments, as produced by the directory walk). -/
def joinParts (parts : List String) : String := String.intercalate "/" parts

-- === treesitter.ts: cache model and change detection ===

/-- `interface CacheEntry` (treesitter.ts). -/
structure CacheEntry where
  file_hash : String
  lastParsed : Nat
deriving Repr, DecidableEq

/-- `interface ProjectCache` (treesitter.ts); `files` is a JS object
keyed by absolute file path. -/
structure ProjectCache where
  files : List (String × CacheEntry)
  lastUpdated : Nat
deriving Repr, DecidableEq

/-- JS object property read `obj[key]`: the unique entry for the key. -/
def assocGet {α : Type} (m : List (String × α)) (k : String) : Option α :=
  (m.find? (fun e => e.1 == k)).map (fun e => e.2)

/-- JS object property write `obj[key] = v`: update in place when the
key exists, otherwise append. -/
def assocSet {α : Type} (m : List (String × α)) (k : String) (v : α) :
    List (String × α) :=
  if m.any (fun e => e.1 == k) then
    m.map (fun e => if e.1 == k then (k, v) else e)
  else m ++ [(k, v)]

/-- JS `delete obj[key]`. -/
def assocDel {α : Type} (m : List (String × α)) (k : String) :
    List (String × α) :=
  m.filter (fun e => !(e.1 == k))

/-- `hasFileChanged(filePath, cache)` (treesitter.ts lines 274-291).
`hf` abstracts `generateHash` (MD5); `fs` is the readable filesystem:
`fs p = none` models a failing `readFileSync` (the `catch` branch).
The cache state is threaded through explicitly so that the absence of
writes to it is part of the embedding's statement; the source only
reads `cache.files[filePath]`. -/
def hasFileChanged (hf : String → String) (fs : String → Option String)
    (filePath : String) (cache : ProjectCache) :
    (Bool × String) × ProjectCache :=
  match fs filePath with
  | some fileContent =>
      let currentHash := hf fileContent
      match assocGet cache.files filePath with
      | none => ((true, currentHash), cache)
      | some cacheEntry =>
          if cacheEntry.file_hash != currentHash then
            ((true, currentHash), cache)
          else ((false, currentHash), cache)
  | none => ((true, ""), cache)

/-- `IMPORTANT_EXTENSIONS` (treesitter.ts line 14). -/
def IMPORTANT_EXTENSIONS : List String := [".js", ".jsx", ".ts", ".tsx", ".py"]

-- === treesitter.ts: getDiffs and the JS `in` operator ===

/-- Property names found on every JS array object besides its element
indices: the own property `length` and the members inherited from
`Array.prototype` and `Object.prototype`.  The `in` operator tests
membership among these keys, not among the array's values. -/
def arrayObjectKeys : List String :=
  ["length", "constructor", "at", "concat", "copyWithin", "entries",
   "every", "fill", "filter", "find", "findIndex", "findLast",
   "findLastIndex", "flat", "flatMap", "forEach", "includes", "indexOf",
   "join", "keys", "lastIndexOf", "map", "pop", "push", "reduce",
   "reduceRight", "reverse", "shift", "slice", "some", "sort", "splice",
   "toLocaleString", "toString", "unshift", "values", "hasOwnProperty",
   "isPrototypeOf", "propertyIsEnumerable", "valueOf"]

/-- The JS expression `key in arr` for an array literal `arr`: true iff
`key` names an index of the array or another array-object property. -/
def jsInArray (key : String) (arr : List String) : Bool :=
  (List.range arr.length).any (fun i => toString i == key)
    || arrayObjectKeys.contains key

/-- A filesystem subtree: what `fs.statSync` / `fs.readdirSync` /
`fs.readFileSync` observe below one path. -/
inductive FSNode where
  | file : String → FSNode
  | dir : List (String × FSNode) → FSNode

/-- `path.relative(process.cwd(), p)` for an absolute `p`, modelled for
the posix case where `p` lies below `cwd`. -/
def relToCwd (cwd p : String) : String :=
  if strStartsWith p (cwd ++ "/") then
    String.mk (p.data.drop (cwd ++ "/").data.length)
  else p

def isAbsolutePath (p : String) : Bool :=
  match p.data with
  | '/' :: _ => true
  | _ => false

mutual
/-- `getDiffs(startingPath, cache, diffs)` (treesitter.ts lines
293-335), walking the already-resolved filesystem node for
`startingPath`.  File contents are read from the node itself (the
model's `statSync` and `readFileSync` agree). -/
def getDiffs (hf : String → String) (cwd : String) :
    FSNode → String → ProjectCache → List String → List String
  | .file content, startingPath, cache, diffs =>
      let fileStatus :=
        (hasFileChanged hf (fun _ => some content) startingPath cache).1
      if fileStatus.1 && jsInArray (extname startingPath) IMPORTANT_EXTENSIONS
      then
        let relativePath :=
          if isAbsolutePath startingPath then relToCwd cwd startingPath
          else startingPath
        diffs ++ [relativePath]
      else diffs
  | .dir children, startingPath, cache, diffs =>
      let baseName := basenameStr startingPath
      if ["node_modules", ".git", "dist", "logs"].contains baseName then diffs
      else getDiffsChildren hf cwd children startingPath cache diffs

/-- The `for (const child of children)` loop inside `getDiffs`. -/
def getDiffsChildren (hf : String → String) (cwd : String) :
    List (String × FSNode) → String → ProjectCache → List String →
    List String
  | [], _, _, diffs => diffs
  | (childName, childNode) :: rest, startingPath, cache, diffs =>
      getDiffsChildren hf cwd rest startingPath cache
        (getDiffs hf cwd childNode (startingPath ++ "/" ++ childName) cache
          diffs)
end

-- === treesitter.ts: structure extraction ===

/-- A tree-sitter syntax node, flattened into an arena record.  The
fields record exactly the observations `extractStructure` makes of a
node: its identity, grammar type, parent, source text, line span, the
`name` / `left` / `property` field children, and the first elements of
`descendantsOfType('arrow_function')` / `('variable_declarator')`.
`node-tree-sitter` interns node objects per tree, so object identity of
nodes coincides with equality of `id`; the `Map` keyed by nodes is
modelled as an association list keyed by `id`. -/
structure SNode where
  id : Nat
  kind : String
  parentId : Option Nat
  text : String
  startRow : Nat
  endRow : Nat
  nameField : Option Nat
  leftField : Option Nat
  propertyField : Option Nat
  arrowDescendants : List Nat
  declaratorDescendants : List Nat
deriving Repr, DecidableEq

/-- A capture produced by running the compiled query: a tag plus the
captured node. -/
structure Capture where
  captureName : String
  nodeId : Nat
deriving Repr, DecidableEq

def lookupNode (arena : List SNode) (i : Nat) : Option SNode :=
  arena.find? (fun n => n.id == i)

/-- `interface CodeItem` (treesitter.ts); children are kept separately
as index lists so that the aliasing of the mutable JS objects is
explicit. -/
structure CodeItem where
  type : String
  name : String
  startLine : Nat
  endLine : Nat
deriving Repr, DecidableEq

def defaultCodeItem : CodeItem :=
  { type := "", name := "", startLine := 0, endLine := 0 }

/-- JS `Map.prototype.set` keyed by node id: update in place (keeping
the entry's position, as JS Maps do) or append. -/
def mapSet (m : List (Nat × Nat)) (k v : Nat) : List (Nat × Nat) :=
  if m.any (fun e => e.1 == k) then
    m.map (fun e => if e.1 == k then (k, v) else e)
  else m ++ [(k, v)]

def mapGet (m : List (Nat × Nat)) (k : Nat) : Option Nat :=
  (m.find? (fun e => e.1 == k)).map (fun e => e.2)

/-- State of the first pass of `extractStructure`: the `items` array,
the `itemMap` from definition-node id to item index, the
`processedNodeIds` set, and (for stating deduplication) the definition
node id recorded at each item creation, in creation order. -/
structure Pass1State where
  items : List CodeItem
  itemMap : List (Nat × Nat)
  processed : List Nat
  createdFrom : List Nat
deriving Repr, DecidableEq

/-- The owner-search loop of the `.name` capture branch:
`while (ownerNode && !itemMap.has(ownerNode)) { ... }`, returning the
node at which the loop stopped.  Fuel bounds the parent chain; any
well-formed arena's chains are shorter than `arena.length + 1`. -/
def ownerWalk (arena : List SNode) (itemMap : List (Nat × Nat)) :
    Nat → Option Nat → Option Nat
  | _, none => none
  | 0, some ownerId => some ownerId
  | fuel + 1, some ownerId =>
      if itemMap.any (fun e => e.1 == ownerId) then some ownerId
      else
        match lookupNode arena ownerId with
        | none => some ownerId
        | some ownerNode =>
            match ownerNode.parentId with
            | none => some ownerId
            | some pid =>
                if pid == ownerId then some ownerId
                else ownerWalk arena itemMap fuel (some pid)

/-- The `switch (definitionNode.type)` of the first pass, returning the
item type together with the possibly re-resolved definition node (for
assignment-style definitions the first `arrow_function` descendant). -/
def resolveDefinition (captureName : String) (node : SNode)
    (arena : List SNode) : Option (String × SNode) :=
  if node.kind == "class_declaration" || node.kind == "class_definition"
  then some ("class", node)
  else if node.kind == "method_definition" then some ("method", node)
  else if node.kind == "function_declaration"
      || node.kind == "function_definition"
      || node.kind == "arrow_function" then some ("function", node)
  else if node.kind == "lexical_declaration"
      || node.kind == "variable_declaration"
      || node.kind == "expression_statement" then
    if strStartsWith captureName "function" then
      match node.arrowDescendants.head? with
      | some aid =>
          match lookupNode arena aid with
          | some assignedFunc => some ("function", assignedFunc)
          | none => some ("function", node)
      | none => some ("function", node)
    else none
  else none

/-- The name-node search of the first pass (declarator name, then the
declaration's first declarator, then the assignment left-hand side). -/
def findNameNode (arena : List SNode) (definitionNode : SNode) :
    Option SNode :=
  let parentNode := definitionNode.parentId.bind (lookupNode arena)
  let nameNode : Option Nat :=
    match parentNode with
    | some p =>
        if p.kind == "variable_declarator" then p.nameField
        else definitionNode.nameField
    | none => definitionNode.nameField
  let nameNode : Option Nat :=
    match nameNode with
    | some nid => some nid
    | none =>
        if definitionNode.kind == "lexical_declaration"
            || definitionNode.kind == "variable_declaration" then
          match definitionNode.declaratorDescendants.head? with
          | some did => (lookupNode arena did).bind (fun d => d.nameField)
          | none => none
        else
          match parentNode with
          | some p =>
              if p.kind == "assignment_expression" then
                match p.leftField.bind (lookupNode arena) with
                | some l =>
                    if l.kind == "identifier" then some l.id
                    else if l.kind == "member_expression" then l.propertyField
                    else none
                | none => none
              else none
          | none => none
  nameNode.bind (lookupNode arena)

/-- One step of the first pass of `extractStructure` (treesitter.ts
lines 519-640): process a single capture. -/
def pass1Step (arena : List SNode) (st : Pass1State) (c : Capture) :
    Pass1State :=
  match lookupNode arena c.nodeId with
  | none => st
  | some node =>
    if st.processed.contains node.id then st
    else if strEndsWith c.captureName ".name" then
      match ownerWalk arena st.itemMap (arena.length + 1) node.parentId with
      | some ownerId =>
          match mapGet st.itemMap ownerId with
          | some ownerIdx =>
              let ownerItem := st.items.getD ownerIdx defaultCodeItem
              if ownerItem.name == "anonymous"
                  || strStartsWith ownerItem.name "defaultExport" then
                { st with items :=
                    st.items.set ownerIdx { ownerItem with name := node.text } }
              else st
          | none => st
      | none => st
    else if strEndsWith c.captureName ".definition" then
      match resolveDefinition c.captureName node arena with
      | none => st
      | some (itemType, definitionNode) =>
          let nameNode := findNameNode arena definitionNode
          let name := (nameNode.map (fun n => n.text)).getD "anonymous"
          let codeItem : CodeItem :=
            { type := itemType, name := name,
              startLine := definitionNode.startRow + 1,
              endLine := definitionNode.endRow + 1 }
          { items := st.items ++ [codeItem],
            itemMap := mapSet st.itemMap definitionNode.id st.items.length,
            processed := st.processed ++ [definitionNode.id],
            createdFrom := st.createdFrom ++ [definitionNode.id] }
    else st

/-- First pass of `extractStructure`: fold over the capture stream. -/
def pass1 (arena : List SNode) (captures : List Capture) : Pass1State :=
  captures.foldl (pass1Step arena)
    { items := [], itemMap := [], processed := [], createdFrom := [] }

/-- State of the second (nesting) pass: the possibly reclassified
items, the `children` lists (item indices) of each item, and the
`nestedNodeIds` set. -/
structure Pass2State where
  items : List CodeItem
  childrenOf : List (List Nat)
  nested : List Nat
deriving Repr, DecidableEq

/-- The ancestor walk of the second pass: climb parents until the
nearest node that `itemMap` maps to a `class` item, returning that
item's index.  A mapped non-class ancestor does not stop the climb. -/
def classAncestorWalk (arena : List SNode) (itemMap : List (Nat × Nat))
    (items : List CodeItem) : Nat → Option Nat → Option Nat
  | _, none => none
  | 0, some _ => none
  | fuel + 1, some pid =>
      match lookupNode arena pid with
      | none => none
      | some parentNode =>
          let next : Option Nat :=
            match parentNode.parentId with
            | none => none
            | some gp => if gp == pid then none else some gp
          match mapGet itemMap pid with
          | some itemIdx =>
              if (items.getD itemIdx defaultCodeItem).type == "class" then
                some itemIdx
              else classAncestorWalk arena itemMap items fuel next
          | none => classAncestorWalk arena itemMap items fuel next

/-- The reclassification applied by the second pass: a `function` item
with a class ancestor becomes a `method` when the scheme is `python`. -/
def reclassify (scheme : String) (it : CodeItem) : CodeItem :=
  if it.type == "function" && scheme == "python" then
    { it with type := "method" }
  else it

/-- One step of the second pass (treesitter.ts lines 646-680) for the
item at index `idx`: find its definition node (the first `itemMap`
entry holding this item), walk to the nearest class ancestor, then
reclassify Python functions to methods and attach methods/functions as
children of the class. -/
def pass2Step (scheme : String) (arena : List SNode)
    (itemMap : List (Nat × Nat)) (st : Pass2State) (idx : Nat) :
    Pass2State :=
  match itemMap.find? (fun e => e.2 == idx) with
  | none => st
  | some entry =>
      let definitionNodeId := entry.1
      let parentStart :=
        (lookupNode arena definitionNodeId).bind (fun n => n.parentId)
      match classAncestorWalk arena itemMap st.items (arena.length + 1)
          parentStart with
      | none => st
      | some parentIdx =>
          let item := reclassify scheme (st.items.getD idx defaultCodeItem)
          let items := st.items.set idx item
          if item.type == "method" || item.type == "function" then
            { items := items,
              childrenOf :=
                st.childrenOf.set parentIdx
                  ((st.childrenOf.getD parentIdx []) ++ [idx]),
              nested := st.nested ++ [definitionNodeId] }
          else { st with items := items }

/-- Second pass of `extractStructure`: iterate over the items created
by the first pass. -/
def pass2 (scheme : String) (arena : List SNode) (p1 : Pass1State) :
    Pass2State :=
  (List.range p1.items.length).foldl (pass2Step scheme arena p1.itemMap)
    { items := p1.items,
      childrenOf := List.replicate p1.items.length [],
      nested := [] }

/-- The final `rootItems` selection (treesitter.ts lines 682-692): an
item stays top-level iff its first `itemMap` entry survives and its
definition node id was not marked nested. -/
def rootIdxs (itemMap : List (Nat × Nat)) (itemCount : Nat)
    (nested : List Nat) : List Nat :=
  (List.range itemCount).filter (fun idx =>
    match itemMap.find? (fun e => e.2 == idx) with
    | some entry => !(nested.contains entry.1)
    | none => false)

/-- `interface CodeItem` materialized: only class items carry a
`children` field (non-class items never acquire one). -/
structure CodeItemTree where
  type : String
  name : String
  startLine : Nat
  endLine : Nat
  children : Option (List CodeItem)
deriving Repr, DecidableEq

def materializeItem (items : List CodeItem) (childrenOf : List (List Nat))
    (idx : Nat) : CodeItemTree :=
  let it := items.getD idx defaultCodeItem
  { type := it.type, name := it.name, startLine := it.startLine,
    endLine := it.endLine,
    children :=
      if it.type == "class" then
        some ((childrenOf.getD idx []).map
          (fun j => items.getD j defaultCodeItem))
      else none }

/-- `interface FileStructure` (treesitter.ts). -/
structure FileStructure where
  filePath : String
  items : List CodeItemTree
  file_hash : String
deriving Repr, DecidableEq

/-- `extractStructure(tree, language, scheme, filePath, fileHash)`
(treesitter.ts lines 495-712), starting from the flat capture stream
the compiled query produced.  `fileContent` stands for the
`readFileSync` performed when `fileHash` is empty. -/
def extractStructure (scheme : String) (arena : List SNode)
    (captures : List Capture) (filePath : String) (fileHash : String)
    (hf : String → String) (fileContent : String) : FileStructure :=
  let p1 := pass1 arena captures
  let p2 := pass2 scheme arena p1
  let roots :=
    (rootIdxs p1.itemMap p1.items.length p2.nested).map
      (materializeItem p2.items p2.childrenOf)
  { filePath := filePath, items := roots,
    file_hash := if fileHash == "" then hf fileContent else fileHash }


-- === treesitter.ts: directory tree merging ===

/-- `type DirectoryTree` (treesitter.ts): a name-keyed JS object whose
values are nested directory trees or `FileStructure` nodes. -/
inductive DirNode where
  | dir : List (String × DirNode) → DirNode
  | file : FileStructure → DirNode

/-- The loop body of `getNodeFromExistingTree` (treesitter.ts lines
730-762): consume path parts one by one.  Reaching a file structure
with exactly one part left returns that file; with more parts left it
fails. -/
def getNodeGo : DirNode → List String → Option DirNode
  | cur, [] => some cur
  | cur, part :: rest =>
      if part == "" then none
      else
        match cur with
        | .file _ => if rest.isEmpty then some cur else none
        | .dir entries =>
            match assocGet entries part with
            | none => none
            | some next => getNodeGo next rest

/-- `getNodeFromExistingTree(existingTree, pathParts)`: `null` when the
tree is absent or the path-part list is empty. -/
def getNodeFromExistingTree (t : Option DirNode) (pathParts : List String) :
    Option DirNode :=
  match t, pathParts with
  | none, _ => none
  | some _, [] => none
  | some cur, part :: rest => getNodeGo cur (part :: rest)

/-- The per-file body of `buildTreeRecursive` (treesitter.ts lines
818-896): run the change detector, write the refreshed cache entry
back, look the file up in the previous tree, and either re-extract
(via the abstracted `extractor`, which models
`parseFile` + `extractStructure` and is `none` when parsing fails) or
reuse the previous node.  Returns the optional tree entry for the
file, the updated cache, and the relative paths added to
`updatedPaths`. -/
def processFileEntry (hf : String → String)
    (extractor : String → String → String → Option FileStructure)
    (now : Nat) (content : String) (fullPath relativePath entryKey : String)
    (cache : ProjectCache) (existingSubtree : Option DirNode) :
    Option DirNode × ProjectCache × List String :=
  let changedHash :=
    (hasFileChanged hf (fun _ => some content) fullPath cache).1
  let changed := changedHash.1
  let hash := changedHash.2
  let cache : ProjectCache :=
    { cache with
      files := assocSet cache.files fullPath
        { file_hash := hash, lastParsed := now } }
  let existingFileNode : Option FileStructure :=
    match existingSubtree with
    | some (.dir entries) =>
        match assocGet entries entryKey with
        | some (.file node) => some node
        | _ => none
    | _ => none
  match existingFileNode, changed with
  | some node, false =>
      if node.file_hash != hash then
        (some (.file { node with file_hash := hash }), cache, [])
      else (some (.file node), cache, [])
  | _, _ =>
      match extractor fullPath relativePath hash with
      | some struc => (some (.file struc), cache, [relativePath])
      | none => (none, cache, [])

mutual
/-- The per-entry dispatch of `buildTreeRecursive` (treesitter.ts lines
765-900): a directory entry recurses and is kept only when non-empty; a
file entry with an important extension goes through
`processFileEntry`.  Paths are handled as segment lists: `rootParts`
are the segments of `rootDir` and `relParts` those of the directory's
path relative to the root, so `path.relative`/`path.join` become list
operations. -/
def buildTreeNode (hf : String → String)
    (extractor : String → String → String → Option FileStructure)
    (now : Nat) (ig : String → Bool) (rootParts : List String)
    (existingTree : Option DirNode) :
    FSNode → String → List String → ProjectCache → List String →
    List (String × DirNode) × ProjectCache × List String
  | FSNode.dir subEntries, entryName, relParts, cache, updatedPaths =>
      let sub := buildTreeEntries hf extractor now ig rootParts existingTree
        subEntries (relParts ++ [entryName]) cache updatedPaths
      if sub.1.isEmpty then ([], sub.2.1, sub.2.2)
      else ([(entryName, DirNode.dir sub.1)], sub.2.1, sub.2.2)
  | FSNode.file content, entryName, relParts, cache, updatedPaths =>
      let ext := lowerStr (extname entryName)
      if IMPORTANT_EXTENSIONS.contains ext then
        let fullPath := joinParts (rootParts ++ relParts ++ [entryName])
        let relativePath := joinParts (relParts ++ [entryName])
        let existingSubtree := getNodeFromExistingTree existingTree relParts
        let r := processFileEntry hf extractor now content fullPath
          relativePath entryName cache existingSubtree
        match r.1 with
        | some node => ([(entryName, node)], r.2.1, updatedPaths ++ r.2.2)
        | none => ([], r.2.1, updatedPaths ++ r.2.2)
      else ([], cache, updatedPaths)

/-- The `for (const entry of entries)` loop of `buildTreeRecursive`,
threading the cache and `updatedPaths` left to right and skipping
ignored entries and `.git`. -/
def buildTreeEntries (hf : String → String)
    (extractor : String → String → String → Option FileStructure)
    (now : Nat) (ig : String → Bool) (rootParts : List String)
    (existingTree : Option DirNode) :
    List (String × FSNode) → List String → ProjectCache → List String →
    List (String × DirNode) × ProjectCache × List String
  | [], _, cache, updatedPaths => ([], cache, updatedPaths)
  | (entryName, entryNode) :: rest, relParts, cache, updatedPaths =>
      let step : List (String × DirNode) × ProjectCache × List String :=
        if ig (joinParts (relParts ++ [entryName])) then
          ([], cache, updatedPaths)
        else if entryName == ".git" then ([], cache, updatedPaths)
        else buildTreeNode hf extractor now ig rootParts existingTree
          entryNode entryName relParts cache updatedPaths
      let restResult := buildTreeEntries hf extractor now ig rootParts
        existingTree rest relParts step.2.1 step.2.2
      (step.1 ++ restResult.1, restResult.2.1, restResult.2.2)
end

/-- `buildTreeRecursive` on a directory's entry list (the body after
`readdirSync`). -/
def buildTreeRec (hf : String → String)
    (extractor : String → String → String → Option FileStructure)
    (now : Nat) (ig : String → Bool) (rootParts : List String)
    (existingTree : Option DirNode)
    (entries : List (String × FSNode)) (relParts : List String)
    (cache : ProjectCache) (updatedPaths : List String) :
    List (String × DirNode) × ProjectCache × List String :=
  buildTreeEntries hf extractor now ig rootParts existingTree entries
    relParts cache updatedPaths

-- === DocManager.ts: path normalization and the processing queue ===

/-- `s.replace(/\\/g, '/')`. -/
def replaceBackslashes (s : String) : String :=
  String.mk (s.data.map (fun ch => if ch == '\\' then '/' else ch))

/-- `s.replace(/^\.\//, '')`. -/
def stripDotSlash (s : String) : String :=
  match s.data with
  | '.' :: '/' :: rest => String.mk rest
  | _ => s

/-- `DocManager.normalizePath` (DocManager.ts lines 304-310):
workspace-relative, forward slashes, no leading `./`.  `path.relative`
is modelled for the posix case of a path below the workspace. -/
def normalizePath (workspacePath filePath : String) : String :=
  let relativePath :=
    if isAbsolutePath filePath then relToCwd workspacePath filePath
    else filePath
  stripDotSlash (replaceBackslashes relativePath)

/-- `DocManager.addToQueue` (DocManager.ts lines 174-185): the queue
effect of one enqueue (the call then kicks the drain loop, which is
guarded by `isProcessingQueue` and does not alter the membership
semantics modelled here). -/
def addToQueue (workspacePath : String) (processingQueue : List String)
    (relativePath : String) : List String :=
  let normalizedPath := normalizePath workspacePath relativePath
  if processingQueue.contains normalizedPath then processingQueue
  else processingQueue ++ [normalizedPath]

-- === DocManager.ts: documentation generation ===

/-- `interface FileDocumentation` (types/docs.ts). -/
structure FileDocumentation where
  path : String
  lastUpdated : String
  summary : String
  type : String
  hash : Option String
  preview : String
  lastModified : Nat
deriving Repr, DecidableEq

/-- The documentation state: the in-memory `projectDocs.files` map and
the persisted per-file artifacts under `docs/files/` (keyed by their
sanitized file name). -/
structure DocState where
  files : List (String × FileDocumentation)
  artifacts : List (String × FileDocumentation)
deriving Repr, DecidableEq

/-- External world of a generation call: the readable filesystem (by
absolute path; `none` models both a failed `existsSync` and a read
error), the summary service outcome per absolute path, file mtimes,
the git HEAD hash, and the current timestamp. -/
structure GenEnv where
  read : String → Option String
  ai : String → Except String String
  mtime : String → Nat
  gitHash : Option String
  now : String

/-- JS whitespace for `String.prototype.trim` (the characters relevant
to source files). -/
def jsWhitespace : List Char :=
  [' ', '\t', '\n', '\r', Char.ofNat 11, Char.ofNat 12]

def strTrim (s : String) : String :=
  String.mk
    (((s.data.dropWhile (fun ch => jsWhitespace.contains ch)).reverse.dropWhile
      (fun ch => jsWhitespace.contains ch)).reverse)

/-- `normalizedRelativePath.replace(/[\/\\]/g, '_')`. -/
def safeBaseName (p : String) : String :=
  String.mk (p.data.map (fun ch => if ch == '/' || ch == '\\' then '_' else ch))

/-- `DocManager.removeDocumentation` (DocManager.ts lines 626-652):
delete the in-memory record and unlink the per-file artifact, only when
an in-memory record exists. -/
def removeDocumentation (workspacePath : String) (st : DocState)
    (relativePath : String) : DocState :=
  let normalizedRelativePath := normalizePath workspacePath relativePath
  match assocGet st.files normalizedRelativePath with
  | some _ =>
      { files := assocDel st.files normalizedRelativePath,
        artifacts := assocDel st.artifacts
          (safeBaseName normalizedRelativePath) }
  | none => st

/-- `DocManager.getFilePreview` (DocManager.ts lines 408-422): first
ten lines of the file. -/
def getFilePreview (env : GenEnv) (workspacePath filePath : String) :
    String :=
  let absolutePath :=
    if isAbsolutePath filePath then filePath
    else workspacePath ++ "/" ++ filePath
  match env.read absolutePath with
  | none => "File not found for preview"
  | some content =>
      let lines := (splitOnChar '\n' content).take 10
      String.intercalate "\n" lines
        ++ (if 10 ≤ lines.length then "\n..." else "")

/-- The documentation record `generateDocumentation` builds for the
normalized path `norm` when generation succeeds. -/
def mkDoc (env : GenEnv) (workspacePath norm summaryText : String) :
    FileDocumentation :=
  let absolutePath := workspacePath ++ "/" ++ norm
  { path := norm,
    lastUpdated := env.now,
    summary := if summaryText == "" then "(No summary generated)"
               else summaryText,
    type := String.mk ((extname absolutePath).data.drop 1),
    hash := env.gitHash,
    preview := getFilePreview env workspacePath absolutePath,
    lastModified := env.mtime absolutePath }

/-- `DocManager.generateDocumentation` (DocManager.ts lines 535-621):
returns the updated documentation state together with the resolved or
rejected outcome of the returned promise. -/
def generateDocumentation (env : GenEnv) (workspacePath : String)
    (st : DocState) (relativePath : String) :
    DocState × Except String FileDocumentation :=
  let normalizedRelativePath := normalizePath workspacePath relativePath
  let absolutePath := workspacePath ++ "/" ++ normalizedRelativePath
  match env.read absolutePath with
  | none =>
      (removeDocumentation workspacePath st normalizedRelativePath,
       Except.error "File not found during generation")
  | some content =>
      if strTrim content == "" then
        (removeDocumentation workspacePath st normalizedRelativePath,
         Except.error "Skipped empty file")
      else
        match env.ai absolutePath with
        | Except.error e => (st, Except.error e)
        | Except.ok summaryText =>
            let doc := mkDoc env workspacePath normalizedRelativePath
              summaryText
            ({ files := assocSet st.files normalizedRelativePath doc,
               artifacts := assocSet st.artifacts
                 (safeBaseName normalizedRelativePath) doc },
             Except.ok doc)

def MAX_CONCURRENT_GENERATIONS : Nat := 3

/-- One batch of `processDocumentationQueue` (DocManager.ts lines
205-232): every item runs `generateDocumentation` with a per-item
`catch` that discards the failure; `Promise.all` of the single-threaded
interleaving is modelled as the sequential fold of the items'
state effects. -/
def processBatch (env : GenEnv) (workspacePath : String) (st : DocState)
    (batch : List String) : DocState :=
  batch.foldl (fun s p => (generateDocumentation env workspacePath s p).1) st

/-- The drain loop of `processDocumentationQueue`: while the queue is
non-empty, splice off a batch of at most `MAX_CONCURRENT_GENERATIONS`
items and process it.  The fuel argument bounds the number of batches;
every iteration removes at least one item, so the initial queue length
is always sufficient fuel. -/
def drainQueue (env : GenEnv) (workspacePath : String) :
    Nat → DocState → List String → DocState
  | 0, st, _ => st
  | _ + 1, st, [] => st
  | fuel + 1, st, p :: rest =>
      let batch := (p :: rest).take MAX_CONCURRENT_GENERATIONS
      let remaining := (p :: rest).drop MAX_CONCURRENT_GENERATIONS
      drainQueue env workspacePath fuel
        (processBatch env workspacePath st batch) remaining

/-- `DocManager.processDocumentationQueue` (DocManager.ts lines
190-238) on a queue with no concurrent additions. -/
def processDocumentationQueue (env : GenEnv) (workspacePath : String)
    (st : DocState) (queue : List String) : DocState :=
  drainQueue env workspacePath queue.length st queue

-- === Concrete worlds used by the evaluation theorems ===

/-- Syntax-node arena for the TypeScript source
`const a = () => 1, b = () => 2;`: one `lexical_declaration` (id 1)
holding two `variable_declarator`s (ids 2, 5) with identifier names
(ids 3, 6) and arrow-function values (ids 4, 7). -/
def tsPairArena : List SNode :=
  [ { id := 0, kind := "program", parentId := none, text := "",
      startRow := 0, endRow := 0, nameField := none, leftField := none,
      propertyField := none, arrowDescendants := [4, 7],
      declaratorDescendants := [2, 5] },
    { id := 1, kind := "lexical_declaration", parentId := some 0, text := "",
      startRow := 0, endRow := 0, nameField := none, leftField := none,
      propertyField := none, arrowDescendants := [4, 7],
      declaratorDescendants := [2, 5] },
    { id := 2, kind := "variable_declarator", parentId := some 1, text := "",
      startRow := 0, endRow := 0, nameField := some 3, leftField := none,
      propertyField := none, arrowDescendants := [4],
      declaratorDescendants := [2] },
    { id := 3, kind := "identifier", parentId := some 2, text := "a",
      startRow := 0, endRow := 0, nameField := none, leftField := none,
      propertyField := none, arrowDescendants := [],
      declaratorDescendants := [] },
    { id := 4, kind := "arrow_function", parentId := some 2, text := "",
      startRow := 0, endRow := 0, nameField := none, leftField := none,
      propertyField := none, arrowDescendants := [4],
      declaratorDescendants := [] },
    { id := 5, kind := "variable_declarator", parentId := some 1, text := "",
      startRow := 0, endRow := 0, nameField := some 6, leftField := none,
      propertyField := none, arrowDescendants := [7],
      declaratorDescendants := [5] },
    { id := 6, kind := "identifier", parentId := some 5, text := "b",
      startRow := 0, endRow := 0, nameField := none, leftField := none,
      propertyField := none, arrowDescendants := [],
      declaratorDescendants := [] },
    { id := 7, kind := "arrow_function", parentId := some 5, text := "",
      startRow := 0, endRow := 0, nameField := none, leftField := none,
      propertyField := none, arrowDescendants := [7],
      declaratorDescendants := [] } ]

/-- The capture stream the TypeScript query produces for
`tsPairArena`: the one pattern matches once per declarator, so the
`lexical_declaration` node is captured twice as `@function.definition`,
followed by the two `@function.name` identifier captures. -/
def tsPairCaptures : List Capture :=
  [ { captureName := "function.definition", nodeId := 1 },
    { captureName := "function.definition", nodeId := 1 },
    { captureName := "function.name", nodeId := 3 },
    { captureName := "function.name", nodeId := 6 } ]

/-- Arena for the Python source `class A:` containing `class B: ...`
(a nested class): module 0, class A (id 1, name id 2), A's block
(id 3), class B (id 4, name id 5). -/
def pyNestedClassArena : List SNode :=
  [ { id := 0, kind := "module", parentId := none, text := "",
      startRow := 0, endRow := 2, nameField := none, leftField := none,
      propertyField := none, arrowDescendants := [],
      declaratorDescendants := [] },
    { id := 1, kind := "class_definition", parentId := some 0, text := "",
      startRow := 0, endRow := 1, nameField := some 2, leftField := none,
      propertyField := none, arrowDescendants := [],
      declaratorDescendants := [] },
    { id := 2, kind := "identifier", parentId := some 1, text := "A",
      startRow := 0, endRow := 0, nameField := none, leftField := none,
      propertyField := none, arrowDescendants := [],
      declaratorDescendants := [] },
    { id := 3, kind := "block", parentId := some 1, text := "",
      startRow := 1, endRow := 1, nameField := none, leftField := none,
      propertyField := none, arrowDescendants := [],
      declaratorDescendants := [] },
    { id := 4, kind := "class_definition", parentId := some 3, text := "",
      startRow := 1, endRow := 1, nameField := some 5, leftField := none,
      propertyField := none, arrowDescendants := [],
      declaratorDescendants := [] },
    { id := 5, kind := "identifier", parentId := some 4, text := "B",
      startRow := 1, endRow := 1, nameField := none, leftField := none,
      propertyField := none, arrowDescendants := [],
      declaratorDescendants := [] } ]

/-- Python query captures for `pyNestedClassArena`. -/
def pyNestedClassCaptures : List Capture :=
  [ { captureName := "class.definition", nodeId := 1 },
    { captureName := "class.name", nodeId := 2 },
    { captureName := "class.definition", nodeId := 4 },
    { captureName := "class.name", nodeId := 5 } ]

/-- Arena for the spec scenario `a.py`: top-level `def foo`, then
`class Bar` with method `def baz` inside its block. -/
def pyBarArena : List SNode :=
  [ { id := 0, kind := "module", parentId := none, text := "",
      startRow := 0, endRow := 4, nameField := none, leftField := none,
      propertyField := none, arrowDescendants := [],
      declaratorDescendants := [] },
    { id := 1, kind := "function_definition", parentId := some 0, text := "",
      startRow := 0, endRow := 1, nameField := some 2, leftField := none,
      propertyField := none, arrowDescendants := [],
      declaratorDescendants := [] },
    { id := 2, kind := "identifier", parentId := some 1, text := "foo",
      startRow := 0, endRow := 0, nameField := none, leftField := none,
      propertyField := none, arrowDescendants := [],
      declaratorDescendants := [] },
    { id := 3, kind := "class_definition", parentId := some 0, text := "",
      startRow := 2, endRow := 4, nameField := some 4, leftField := none,
      propertyField := none, arrowDescendants := [],
      declaratorDescendants := [] },
    { id := 4, kind := "identifier", parentId := some 3, text := "Bar",
      startRow := 2, endRow := 2, nameField := none, leftField := none,
      propertyField := none, arrowDescendants := [],
      declaratorDescendants := [] },
    { id := 5, kind := "block", parentId := some 3, text := "",
      startRow := 3, endRow := 4, nameField := none, leftField := none,
      propertyField := none, arrowDescendants := [],
      declaratorDescendants := [] },
    { id := 6, kind := "function_definition", parentId := some 5, text := "",
      startRow := 3, endRow := 4, nameField := some 7, leftField := none,
      propertyField := none, arrowDescendants := [],
      declaratorDescendants := [] },
    { id := 7, kind := "identifier", parentId := some 6, text := "baz",
      startRow := 3, endRow := 3, nameField := none, leftField := none,
      propertyField := none, arrowDescendants := [],
      declaratorDescendants := [] } ]

/-- Python query captures for `pyBarArena`. -/
def pyBarCaptures : List Capture :=
  [ { captureName := "function.definition", nodeId := 1 },
    { captureName := "function.name", nodeId := 2 },
    { captureName := "class.definition", nodeId := 3 },
    { captureName := "class.name", nodeId := 4 },
    { captureName := "function.definition", nodeId := 6 },
    { captureName := "function.name", nodeId := 7 } ]

/-- A concrete hash function for the evaluation theorems. -/
def hashEx (s : String) : String := "h" ++ s

/-- Concrete world for the unchanged-file scan: workspace root `proj`
containing `src/b.py` with content `"x"`. -/
def scanEntriesEx : List (String × FSNode) :=
  [("src", FSNode.dir [("b.py", FSNode.file "x")])]

/-- Scan cache whose entry for `proj/src/b.py` matches the current
content hash of `b.py` (the file is unchanged). -/
def scanCacheEx : ProjectCache :=
  { files := [("proj/src/b.py", { file_hash := "hx", lastParsed := 0 })],
    lastUpdated := 0 }

/-- The prior scan's structure node for `src/b.py`, with the same
stored hash as the cache and the current content. -/
def priorNodeEx : FileStructure :=
  { filePath := "src/b.py",
    items := [ { type := "function", name := "old", startLine := 1,
                 endLine := 1, children := none } ],
    file_hash := "hx" }

/-- The previous tree as `loadExistingTree` returns it: the saved JSON
wraps the scanned contents under the root directory's name. -/
def priorTreeEx : DirNode :=
  DirNode.dir
    [("proj",
      DirNode.dir
        [("src", DirNode.dir [("b.py", DirNode.file priorNodeEx)])])]

/-- A fresh structure node an extractor could produce for `src/b.py`. -/
def freshNodeEx : FileStructure :=
  { filePath := "src/b.py", items := [], file_hash := "hx" }

-- === Helper lemmas ===

theorem beq_symm_false {k k' : String} (hne : (k' == k) = false) :
    (k == k') = false := by
  cases hb : k == k'
  · rfl
  · exfalso
    have hkk : k = k' := by simpa using hb
    subst hkk
    simp at hne

theorem assocGet_map_set {α : Type} (k : String) (v : α) :
    ∀ m : List (String × α), m.any (fun e => e.1 == k) = true →
      assocGet (m.map (fun e => if e.1 == k then (k, v) else e)) k = some v := by
  intro m
  induction m with
  | nil => intro h; simp at h
  | cons hd tl ih =>
      intro h
      unfold assocGet
      cases hhd : (hd.1 == k) with
      | true =>
          rw [List.map_cons, if_pos hhd,
            List.find?_cons_of_pos (p := fun (e : String × α) => e.1 == k) _ (by simp)]
          rfl
      | false =>
          have htl : tl.any (fun e => e.1 == k) = true := by
            simp only [List.any_cons, hhd, Bool.false_or] at h
            exact h
          rw [List.map_cons, if_neg (by simp [hhd]),
            List.find?_cons_of_neg (p := fun (e : String × α) => e.1 == k) _ (by simp [hhd])]
          exact ih htl

theorem assocGet_append_single {α : Type} (k : String) (v : α) :
    ∀ m : List (String × α), m.any (fun e => e.1 == k) = false →
      assocGet (m ++ [(k, v)]) k = some v := by
  intro m
  induction m with
  | nil =>
      intro _
      unfold assocGet
      rw [List.nil_append,
        List.find?_cons_of_pos (p := fun (e : String × α) => e.1 == k) _ (by simp)]
      rfl
  | cons hd tl ih =>
      intro h
      simp only [List.any_cons, Bool.or_eq_false_iff] at h
      unfold assocGet
      rw [List.cons_append,
        List.find?_cons_of_neg (p := fun (e : String × α) => e.1 == k) _ (by simp [h.1])]
      exact ih h.2

theorem assocGet_assocSet_self {α : Type} (m : List (String × α)) (k : String)
    (v : α) : assocGet (assocSet m k v) k = some v := by
  unfold assocSet
  cases h : m.any (fun e => e.1 == k) with
  | true =>
      rw [if_pos rfl]
      exact assocGet_map_set k v m h
  | false =>
      rw [if_neg (by simp)]
      exact assocGet_append_single k v m h

theorem assocGet_map_set_ne {α : Type} (k k' : String) (v : α)
    (hne : (k' == k) = false) :
    ∀ m : List (String × α),
      assocGet (m.map (fun e => if e.1 == k then (k, v) else e)) k' =
        assocGet m k' := by
  intro m
  induction m with
  | nil => rfl
  | cons hd tl ih =>
      unfold assocGet
      cases hhd : (hd.1 == k) with
      | true =>
          have hk : hd.1 = k := by simpa using hhd
          have h2 : (hd.1 == k') = false := by
            rw [hk]
            exact beq_symm_false hne
          rw [List.map_cons, if_pos hhd,
            List.find?_cons_of_neg (p := fun (e : String × α) => e.1 == k') _
              (by simp [beq_symm_false hne]),
            List.find?_cons_of_neg (p := fun (e : String × α) => e.1 == k') _ (by simp [h2])]
          exact ih
      | false =>
          rw [List.map_cons, if_neg (by simp [hhd])]
          cases hp : (hd.1 == k') with
          | true =>
              rw [List.find?_cons_of_pos (p := fun (e : String × α) => e.1 == k') _ hp,
                List.find?_cons_of_pos (p := fun (e : String × α) => e.1 == k') _ hp]
          | false =>
              rw [List.find?_cons_of_neg (p := fun (e : String × α) => e.1 == k') _
                  (by simp [hp]),
                List.find?_cons_of_neg (p := fun (e : String × α) => e.1 == k') _
                  (by simp [hp])]
              exact ih

theorem assocGet_append_single_ne {α : Type} (k k' : String) (v : α)
    (hne : (k' == k) = false) :
    ∀ m : List (String × α), assocGet (m ++ [(k, v)]) k' = assocGet m k' := by
  intro m
  induction m with
  | nil =>
      unfold assocGet
      rw [List.nil_append,
        List.find?_cons_of_neg (p := fun (e : String × α) => e.1 == k') _
          (by simp [beq_symm_false hne])]
  | cons hd tl ih =>
      unfold assocGet
      rw [List.cons_append]
      cases hp : (hd.1 == k') with
      | true =>
          rw [List.find?_cons_of_pos (p := fun (e : String × α) => e.1 == k') _ hp,
            List.find?_cons_of_pos (p := fun (e : String × α) => e.1 == k') _ hp]
      | false =>
          rw [List.find?_cons_of_neg (p := fun (e : String × α) => e.1 == k') _
              (by simp [hp]),
            List.find?_cons_of_neg (p := fun (e : String × α) => e.1 == k') _
              (by simp [hp])]
          exact ih

theorem assocGet_assocSet_ne {α : Type} (m : List (String × α))
    (k k' : String) (v : α) (hne : (k' == k) = false) :
    assocGet (assocSet m k v) k' = assocGet m k' := by
  unfold assocSet
  cases h : m.any (fun e => e.1 == k) with
  | true =>
      rw [if_pos rfl]
      exact assocGet_map_set_ne k k' v hne m
  | false =>
      rw [if_neg (by simp)]
      exact assocGet_append_single_ne k k' v hne m

theorem assocGet_assocDel_self {α : Type} (m : List (String × α))
    (k : String) : assocGet (assocDel m k) k = none := by
  unfold assocDel
  induction m with
  | nil => rfl
  | cons hd tl ih =>
      rw [List.filter_cons]
      cases hhd : (hd.1 == k) with
      | true =>
          rw [if_neg (by simp [hhd])]
          exact ih
      | false =>
          rw [if_pos (by simp [hhd])]
          unfold assocGet
          rw [List.find?_cons_of_neg (p := fun (e : String × α) => e.1 == k) _
            (by simp [hhd])]
          exact ih

theorem assocGet_assocDel_ne {α : Type} (m : List (String × α))
    (k k' : String) (hne : (k' == k) = false) :
    assocGet (assocDel m k) k' = assocGet m k' := by
  unfold assocDel
  induction m with
  | nil => rfl
  | cons hd tl ih =>
      rw [List.filter_cons]
      cases hhd : (hd.1 == k) with
      | true =>
          have hk : hd.1 = k := by simpa using hhd
          have h2 : (hd.1 == k') = false := by
            rw [hk]
            exact beq_symm_false hne
          rw [if_neg (by simp [hhd])]
          unfold assocGet
          rw [List.find?_cons_of_neg (p := fun (e : String × α) => e.1 == k') _
            (by simp [h2])]
          exact ih
      | false =>
          rw [if_pos (by simp [hhd])]
          unfold assocGet
          cases hp : (hd.1 == k') with
          | true =>
              rw [List.find?_cons_of_pos (p := fun (e : String × α) => e.1 == k') _ hp,
                List.find?_cons_of_pos (p := fun (e : String × α) => e.1 == k') _ hp]
          | false =>
              rw [List.find?_cons_of_neg (p := fun (e : String × α) => e.1 == k') _
                  (by simp [hp]),
                List.find?_cons_of_neg (p := fun (e : String × α) => e.1 == k') _
                  (by simp [hp])]
              exact ih

-- === C1 ===

/-- C1: for every file path and cache, when the file's content is
readable, `hasFileChanged` returns `changed = true` iff the cache has
no entry for the path or the entry's stored hash differs from the hash
of the current content (so `changed` is always true for a
never-before-seen path), and the returned `hash` field is the hash of
the current content. -/
theorem c1_hasFileChanged_change_detection (hf : String → String)
    (fs : String → Option String) (filePath : String) (cache : ProjectCache)
    (content : String) (hread : fs filePath = some content) :
    ((hasFileChanged hf fs filePath cache).1.1 = true ↔
      assocGet cache.files filePath = none ∨
        ∃ e, assocGet cache.files filePath = some e ∧
          e.file_hash ≠ hf content)
    ∧ (hasFileChanged hf fs filePath cache).1.2 = hf content := by
  unfold hasFileChanged
  rw [hread]
  cases hc : assocGet cache.files filePath with
  | none => simp
  | some e =>
      by_cases hne : e.file_hash = hf content
      · simp [hne, bne_iff_ne]
      · simp [hne, bne_iff_ne]

/-- Witness for C1: a readable file and an empty cache. -/
theorem c1_hasFileChanged_change_detection_witness :
    ((hasFileChanged (fun s => "h" ++ s) (fun _ => some "abc") "a.ts"
        { files := [], lastUpdated := 0 }).1.1 = true ↔
      assocGet ({ files := [], lastUpdated := 0 } : ProjectCache).files
          "a.ts" = none ∨
        ∃ e, assocGet ({ files := [], lastUpdated := 0 } : ProjectCache).files
            "a.ts" = some e ∧
          e.file_hash ≠ (fun s => "h" ++ s) "abc")
    ∧ (hasFileChanged (fun s => "h" ++ s) (fun _ => some "abc") "a.ts"
        { files := [], lastUpdated := 0 }).1.2 =
      (fun s => "h" ++ s) "abc" :=
  c1_hasFileChanged_change_detection (fun s => "h" ++ s)
    (fun _ => some "abc") "a.ts" { files := [], lastUpdated := 0 } "abc" rfl

-- === C7 ===

/-- C7: when reading the file fails, `hasFileChanged` returns
`changed = true` and the empty hash instead of raising. -/
theorem c7_hasFileChanged_read_failure (hf : String → String)
    (fs : String → Option String) (filePath : String) (cache : ProjectCache)
    (hfail : fs filePath = none) :
    (hasFileChanged hf fs filePath cache).1 = (true, "") := by
  unfold hasFileChanged
  rw [hfail]

/-- Witness for C7: a filesystem on which every read fails. -/
theorem c7_hasFileChanged_read_failure_witness :
    (hasFileChanged (fun s => "h" ++ s) (fun _ => none) "missing.ts"
      { files := [], lastUpdated := 0 }).1 = (true, "") :=
  c7_hasFileChanged_read_failure (fun s => "h" ++ s) (fun _ => none)
    "missing.ts" { files := [], lastUpdated := 0 } rfl

-- === C9 ===

/-- C9: `hasFileChanged` has no side effect on the cache passed to it
(the threaded cache state is returned unchanged on every path), and it
is the caller — the per-file step of `buildTreeRecursive` — that
writes the refreshed entry back under the file's path. -/
theorem c9_hasFileChanged_cache_frame (hf : String → String)
    (fs : String → Option String) (filePath : String) (cache : ProjectCache)
    (extractor : String → String → String → Option FileStructure)
    (now : Nat) (content : String) (fullPath relativePath entryKey : String)
    (existingSubtree : Option DirNode) :
    (hasFileChanged hf fs filePath cache).2 = cache
    ∧ (processFileEntry hf extractor now content fullPath relativePath
        entryKey cache existingSubtree).2.1 =
      { cache with
        files := assocSet cache.files fullPath
          { file_hash :=
              (hasFileChanged hf (fun _ => some content) fullPath cache).1.2,
            lastParsed := now } } := by
  constructor
  · unfold hasFileChanged
    dsimp only
    repeat' split
    all_goals rfl
  · unfold processFileEntry
    dsimp only
    repeat' split
    all_goals rfl

-- === C6 ===

/-- C6: `addToQueue` on a path already present in the queue leaves the
queue unchanged, so enqueueing the same normalized path N times while
it is pending keeps the queue fixed; and from a queue not containing
the path, N ≥ 1 enqueues produce exactly one entry for it. -/
theorem c6_addToQueue_dedup (ws p : String) (q : List String)
    (hmem : normalizePath ws p ∈ q) :
    addToQueue ws q p = q
    ∧ (∀ N : Nat, (fun qq => addToQueue ws qq p)^[N] q = q)
    ∧ (∀ (q0 : List String) (N : Nat), normalizePath ws p ∉ q0 → 1 ≤ N →
        List.count (normalizePath ws p)
          ((fun qq => addToQueue ws qq p)^[N] q0) = 1) := by
  have hstepIn : ∀ qq, normalizePath ws p ∈ qq → addToQueue ws qq p = qq := by
    intro qq hm
    unfold addToQueue
    dsimp only
    rw [if_pos (by simpa using hm)]
  have hiter : ∀ (N : Nat) (qq : List String), normalizePath ws p ∈ qq →
      (fun qq => addToQueue ws qq p)^[N] qq = qq := by
    intro N
    induction N with
    | zero => intro qq _; rfl
    | succ M ih =>
        intro qq hm
        rw [Function.iterate_succ_apply]
        simp only [hstepIn qq hm]
        exact ih qq hm
  refine ⟨hstepIn q hmem, fun N => hiter N q hmem, ?_⟩
  intro q0 N h0 hN
  obtain ⟨M, rfl⟩ : ∃ M, N = M + 1 := ⟨N - 1, by omega⟩
  rw [Function.iterate_succ_apply]
  have hadd : addToQueue ws q0 p = q0 ++ [normalizePath ws p] := by
    unfold addToQueue
    dsimp only
    rw [if_neg (by simpa using h0)]
  simp only [hadd]
  rw [hiter M _ (by simp), List.count_append]
  simp [List.count_eq_zero.mpr h0]

/-- Witness for C6: the path `a.ts` already pending in the queue. -/
theorem c6_addToQueue_dedup_witness :
    addToQueue "ws" ["a.ts"] "a.ts" = ["a.ts"]
    ∧ (∀ N : Nat,
        (fun qq => addToQueue "ws" qq "a.ts")^[N] ["a.ts"] = ["a.ts"])
    ∧ (∀ (q0 : List String) (N : Nat),
        normalizePath "ws" "a.ts" ∉ q0 → 1 ≤ N →
        List.count (normalizePath "ws" "a.ts")
          ((fun qq => addToQueue "ws" qq "a.ts")^[N] q0) = 1) :=
  c6_addToQueue_dedup "ws" "a.ts" ["a.ts"] (by decide)

-- === C2 ===

theorem extname_empty_or_dot (p : String) :
    extname p = "" ∨ ∃ cs, extname p = String.mk ('.' :: cs) := by
  unfold extname
  dsimp only
  split
  · exact Or.inl rfl
  · split
    · exact Or.inl rfl
    · exact Or.inr ⟨_, rfl⟩

/-- The membership test `path.extname(startingPath) in IMPORTANT_EXTENSIONS`
is false for every path: `extname` only returns the empty string or a
dot-prefixed string, and `in` on an array tests index keys and
array-object property names, none of which are empty or dot-prefixed. -/
theorem jsInArray_extname_false (p : String) :
    jsInArray (extname p) IMPORTANT_EXTENSIONS = false := by
  rcases extname_empty_or_dot p with h | ⟨cs, h⟩
  · rw [h]
    exact rfl
  · rw [h]
    exact rfl

mutual
/-- `getDiffs` never adds anything to its accumulator: the extension
membership test is always false. -/
theorem getDiffs_returns_diffs (hf : String → String) (cwd : String) :
    ∀ (node : FSNode) (p : String) (cache : ProjectCache)
      (diffs : List String), getDiffs hf cwd node p cache diffs = diffs
  | .file content, p, cache, diffs => by
      unfold getDiffs
      dsimp only
      rw [if_neg (by simp [jsInArray_extname_false])]
  | .dir children, p, cache, diffs => by
      unfold getDiffs
      dsimp only
      split
      · rfl
      · exact getDiffsChildren_returns_diffs hf cwd children p cache diffs

/-- The children loop of `getDiffs` likewise returns the accumulator. -/
theorem getDiffsChildren_returns_diffs (hf : String → String)
    (cwd : String) :
    ∀ (entries : List (String × FSNode)) (p : String) (cache : ProjectCache)
      (diffs : List String),
      getDiffsChildren hf cwd entries p cache diffs = diffs
  | [], _, _, _ => rfl
  | (n, node) :: rest, p, cache, diffs => by
      unfold getDiffsChildren
      rw [getDiffs_returns_diffs hf cwd node _ cache diffs]
      exact getDiffsChildren_returns_diffs hf cwd rest p cache diffs
end

/-- C2: the allow-list test in `getDiffs` uses the JS `in` operator on
an array, which is always false, so `getDiffs` reports no file at all.
At the concrete input: a changed `a.ts` (extension in the allow-list)
is not included; in general the result always equals the incoming
accumulator. -/
theorem c2_getDiffs_allow_list_dead :
    (hasFileChanged (fun s => "h" ++ s) (fun _ => some "let x = 1") "a.ts"
        { files := [], lastUpdated := 0 }).1.1 = true
    ∧ extname "a.ts" = ".ts"
    ∧ ".ts" ∈ IMPORTANT_EXTENSIONS
    ∧ getDiffs (fun s => "h" ++ s) "" (FSNode.file "let x = 1") "a.ts"
        { files := [], lastUpdated := 0 } [] = []
    ∧ ∀ (hf : String → String) (cwd : String) (node : FSNode) (p : String)
        (cache : ProjectCache) (diffs : List String),
        getDiffs hf cwd node p cache diffs = diffs :=
  ⟨rfl, rfl, by decide, rfl, getDiffs_returns_diffs⟩

-- === C3 ===

/-- C3: the first pass of `extractStructure` can create two `CodeItem`s
from the same underlying definition node.  On
`const a = () => 1, b = () => 2;` the `lexical_declaration` is captured
once per declarator; both captures resolve to the same first
arrow-function node (id 4), but the pass marks the resolved node's id
as processed rather than the captured node's id, so the second capture
creates a second item for definition node 4. -/
theorem c3_pass1_duplicate_definition_node :
    (pass1 tsPairArena tsPairCaptures).createdFrom = [4, 4]
    ∧ ¬ List.Pairwise Ne (pass1 tsPairArena tsPairCaptures).createdFrom
    ∧ (pass1 tsPairArena tsPairCaptures).items =
        [ { type := "function", name := "a", startLine := 1, endLine := 1 },
          { type := "function", name := "a", startLine := 1, endLine := 1 } ] := by
  refine ⟨by decide, ?_, by decide⟩
  intro hpw
  have h44 : (pass1 tsPairArena tsPairCaptures).createdFrom = [4, 4] := by
    decide
  rw [h44] at hpw
  exact (List.pairwise_cons.mp hpw).1 4 (by simp) rfl

-- === C4 ===

theorem getD_set_self {α : Type} (l : List α) (i : Nat) (a d : α)
    (h : i < l.length) : (l.set i a).getD i d = a := by
  simp [List.getD, List.getElem?_set_self, h]

theorem getD_set_ne {α : Type} (l : List α) (i j : Nat) (a d : α)
    (h : i ≠ j) : (l.set i a).getD j d = l.getD j d := by
  simp [List.getD, List.getElem?_set_ne h]

theorem getD_default_of_le {α : Type} (l : List α) (n : Nat) (d : α)
    (h : l.length ≤ n) : l.getD n d = d := by
  simp [List.getD, List.getElem?_eq_none h]

theorem mem_getD_set_append {α : Type} (l : List (List α)) (p q : Nat)
    (x : α) (ys : List α) (hx : x ∈ l.getD p []) :
    x ∈ (l.set q (l.getD q [] ++ ys)).getD p [] := by
  by_cases hq : q = p
  · subst hq
    by_cases hlen : q < l.length
    · rw [getD_set_self _ _ _ _ hlen]
      exact List.mem_append_left ys hx
    · rw [List.set_eq_of_length_le (by omega)]
      exact hx
  · rw [getD_set_ne _ _ _ _ _ hq]
    exact hx

/-- A class ancestor returned by the walk is a `class` item. -/
theorem classAncestorWalk_class (arena : List SNode)
    (itemMap : List (Nat × Nat)) (items : List CodeItem) :
    ∀ (fuel : Nat) (start : Option Nat) (r : Nat),
      classAncestorWalk arena itemMap items fuel start = some r →
      ((items.getD r defaultCodeItem).type == "class") = true := by
  intro fuel
  induction fuel with
  | zero =>
      intro start r h
      cases start with
      | none => exact absurd h (by simp [classAncestorWalk])
      | some pid => exact absurd h (by simp [classAncestorWalk])
  | succ f ih =>
      intro start r h
      cases start with
      | none => exact absurd h (by simp [classAncestorWalk])
      | some pid =>
          unfold classAncestorWalk at h
          dsimp only at h
          cases hlk : lookupNode arena pid with
          | none => rw [hlk] at h; exact absurd h (by simp)
          | some pnode =>
              rw [hlk] at h
              dsimp only at h
              cases hmg : mapGet itemMap pid with
              | none =>
                  rw [hmg] at h
                  dsimp only at h
                  exact ih _ r h
              | some itemIdx =>
                  rw [hmg] at h
                  dsimp only at h
                  by_cases hcl :
                      ((items.getD itemIdx defaultCodeItem).type == "class")
                        = true
                  · rw [if_pos hcl] at h
                    cases h
                    exact hcl
                  · rw [if_neg hcl] at h
                    exact ih _ r h

/-- The ancestor walk only inspects which items are classes, so it is
unchanged when the item list changes without altering any item's
class-ness. -/
theorem classAncestorWalk_congr (arena : List SNode)
    (itemMap : List (Nat × Nat)) (items items' : List CodeItem)
    (hcl : ∀ j, ((items.getD j defaultCodeItem).type == "class") =
      ((items'.getD j defaultCodeItem).type == "class")) :
    ∀ (fuel : Nat) (start : Option Nat),
      classAncestorWalk arena itemMap items fuel start =
        classAncestorWalk arena itemMap items' fuel start := by
  intro fuel
  induction fuel with
  | zero =>
      intro start
      cases start <;> simp [classAncestorWalk]
  | succ f ih =>
      intro start
      cases start with
      | none => simp [classAncestorWalk]
      | some pid =>
          unfold classAncestorWalk
          dsimp only
          cases lookupNode arena pid with
          | none => rfl
          | some pnode =>
              dsimp only
              cases mapGet itemMap pid with
              | none => exact ih _
              | some itemIdx =>
                  dsimp only
                  rw [hcl itemIdx]
                  by_cases hc :
                      ((items'.getD itemIdx defaultCodeItem).type == "class")
                        = true
                  · rw [if_pos hc, if_pos hc]
                  · rw [if_neg hc, if_neg hc]
                    exact ih _

/-- The items array after one pass-2 step: unchanged, or its own index
overwritten with the reclassified item. -/
theorem pass2Step_items_eq (scheme : String) (arena : List SNode)
    (itemMap : List (Nat × Nat)) (st : Pass2State) (j : Nat) :
    (pass2Step scheme arena itemMap st j).items = st.items
    ∨ (pass2Step scheme arena itemMap st j).items =
        st.items.set j (reclassify scheme (st.items.getD j defaultCodeItem)) := by
  unfold pass2Step
  dsimp only
  cases itemMap.find? (fun e => e.2 == j) with
  | none => exact Or.inl rfl
  | some entry =>
      dsimp only
      cases classAncestorWalk arena itemMap st.items (arena.length + 1)
          ((lookupNode arena entry.1).bind (fun n => n.parentId)) with
      | none => exact Or.inl rfl
      | some pIdx =>
          dsimp only
          split
          · exact Or.inr rfl
          · exact Or.inr rfl

/-- The children lists after one pass-2 step: unchanged, or one list
extended with the step's own index. -/
theorem pass2Step_childrenOf_eq (scheme : String) (arena : List SNode)
    (itemMap : List (Nat × Nat)) (st : Pass2State) (j : Nat) :
    (pass2Step scheme arena itemMap st j).childrenOf = st.childrenOf
    ∨ ∃ p, (pass2Step scheme arena itemMap st j).childrenOf =
        st.childrenOf.set p (st.childrenOf.getD p [] ++ [j]) := by
  unfold pass2Step
  dsimp only
  cases itemMap.find? (fun e => e.2 == j) with
  | none => exact Or.inl rfl
  | some entry =>
      dsimp only
      cases classAncestorWalk arena itemMap st.items (arena.length + 1)
          ((lookupNode arena entry.1).bind (fun n => n.parentId)) with
      | none => exact Or.inl rfl
      | some pIdx =>
          dsimp only
          split
          · exact Or.inr ⟨pIdx, rfl⟩
          · exact Or.inl rfl

/-- The nested-id set after one pass-2 step: unchanged or extended. -/
theorem pass2Step_nested_eq (scheme : String) (arena : List SNode)
    (itemMap : List (Nat × Nat)) (st : Pass2State) (j : Nat) :
    (pass2Step scheme arena itemMap st j).nested = st.nested
    ∨ ∃ d, (pass2Step scheme arena itemMap st j).nested = st.nested ++ [d] := by
  unfold pass2Step
  dsimp only
  cases itemMap.find? (fun e => e.2 == j) with
  | none => exact Or.inl rfl
  | some entry =>
      dsimp only
      cases classAncestorWalk arena itemMap st.items (arena.length + 1)
          ((lookupNode arena entry.1).bind (fun n => n.parentId)) with
      | none => exact Or.inl rfl
      | some pIdx =>
          dsimp only
          split
          · exact Or.inr ⟨entry.1, rfl⟩
          · exact Or.inl rfl

/-- Reclassification never changes whether an item is a class. -/
theorem reclassify_class_status (scheme : String) (it : CodeItem) :
    ((reclassify scheme it).type == "class") = (it.type == "class") := by
  unfold reclassify
  split
  · rename_i h
    have h1 : it.type = "function" := by
      simp only [Bool.and_eq_true, beq_iff_eq] at h
      exact h.1
    rw [h1]
    rfl
  · rfl

/-- One pass-2 step only writes its own item index. -/
theorem pass2Step_items_getD_ne (scheme : String) (arena : List SNode)
    (itemMap : List (Nat × Nat)) (st : Pass2State) (j i : Nat)
    (hij : j ≠ i) :
    (pass2Step scheme arena itemMap st j).items.getD i defaultCodeItem =
      st.items.getD i defaultCodeItem := by
  rcases pass2Step_items_eq scheme arena itemMap st j with h | h
  · rw [h]
  · rw [h, getD_set_ne _ _ _ _ _ hij]

/-- One pass-2 step preserves the lengths of the item and children
arrays. -/
theorem pass2Step_lengths (scheme : String) (arena : List SNode)
    (itemMap : List (Nat × Nat)) (st : Pass2State) (j : Nat) :
    (pass2Step scheme arena itemMap st j).items.length = st.items.length
    ∧ (pass2Step scheme arena itemMap st j).childrenOf.length =
      st.childrenOf.length := by
  constructor
  · rcases pass2Step_items_eq scheme arena itemMap st j with h | h <;>
      simp [h, List.length_set]
  · rcases pass2Step_childrenOf_eq scheme arena itemMap st j with h | ⟨p, h⟩ <;>
      simp [h, List.length_set]

/-- One pass-2 step never changes whether any item is a class. -/
theorem pass2Step_class_status (scheme : String) (arena : List SNode)
    (itemMap : List (Nat × Nat)) (st : Pass2State) (j i : Nat) :
    (((pass2Step scheme arena itemMap st j).items.getD i
        defaultCodeItem).type == "class") =
      ((st.items.getD i defaultCodeItem).type == "class") := by
  rcases pass2Step_items_eq scheme arena itemMap st j with h | h
  · rw [h]
  · rw [h]
    by_cases hij : j = i
    · subst hij
      by_cases hlen : j < st.items.length
      · rw [getD_set_self _ _ _ _ hlen, reclassify_class_status]
      · rw [List.set_eq_of_length_le (by omega)]
    · rw [getD_set_ne _ _ _ _ _ hij]

/-- One pass-2 step at another index preserves an established
attachment: membership in a children list, membership in the nested-id
set, and the value of a fixed item slot. -/
theorem pass2Step_preserves_post (scheme : String) (arena : List SNode)
    (itemMap : List (Nat × Nat)) (st : Pass2State) (j i pIdx dId : Nat)
    (v : CodeItem) (hij : j ≠ i)
    (h1 : i ∈ st.childrenOf.getD pIdx [])
    (h2 : dId ∈ st.nested)
    (h3 : st.items.getD i defaultCodeItem = v) :
    i ∈ (pass2Step scheme arena itemMap st j).childrenOf.getD pIdx []
    ∧ dId ∈ (pass2Step scheme arena itemMap st j).nested
    ∧ (pass2Step scheme arena itemMap st j).items.getD i defaultCodeItem
      = v := by
  refine ⟨?_, ?_, ?_⟩
  · rcases pass2Step_childrenOf_eq scheme arena itemMap st j with h | ⟨p, h⟩
    · rw [h]; exact h1
    · rw [h]; exact mem_getD_set_append _ _ _ _ _ h1
  · rcases pass2Step_nested_eq scheme arena itemMap st j with h | ⟨d, h⟩
    · rw [h]; exact h2
    · rw [h]; exact List.mem_append_left _ h2
  · rw [pass2Step_items_getD_ne scheme arena itemMap st j i hij]
    exact h3

/-- The pass-2 step at an item's own index performs the attachment:
given the item's `itemMap` entry and a successful class-ancestor walk,
and provided its reclassified kind is method or function, the step
appends the item to the class's children list, records its definition
node id as nested, and stores the reclassified item. -/
theorem pass2Step_attaches (scheme : String) (arena : List SNode)
    (itemMap : List (Nat × Nat)) (p1items : List CodeItem)
    (st : Pass2State) (idx defId parentIdx : Nat)
    (hfind : itemMap.find? (fun e => e.2 == idx) = some (defId, idx))
    (hwalk : classAncestorWalk arena itemMap p1items (arena.length + 1)
      ((lookupNode arena defId).bind (fun n => n.parentId)) = some parentIdx)
    (htype :
      (reclassify scheme (p1items.getD idx defaultCodeItem)).type = "method"
      ∨ (reclassify scheme (p1items.getD idx defaultCodeItem)).type
          = "function")
    (hidx : idx < p1items.length)
    (hitems : st.items.getD idx defaultCodeItem =
      p1items.getD idx defaultCodeItem)
    (hcl : ∀ j, ((st.items.getD j defaultCodeItem).type == "class") =
      ((p1items.getD j defaultCodeItem).type == "class"))
    (hlen : st.items.length = p1items.length)
    (hclen : st.childrenOf.length = p1items.length) :
    idx ∈ (pass2Step scheme arena itemMap st idx).childrenOf.getD parentIdx []
    ∧ defId ∈ (pass2Step scheme arena itemMap st idx).nested
    ∧ (pass2Step scheme arena itemMap st idx).items.getD idx defaultCodeItem
      = reclassify scheme (p1items.getD idx defaultCodeItem) := by
  have hwalk' : classAncestorWalk arena itemMap st.items (arena.length + 1)
      ((lookupNode arena defId).bind (fun n => n.parentId))
      = some parentIdx := by
    rw [classAncestorWalk_congr arena itemMap st.items p1items hcl]
    exact hwalk
  have hpclass : ((p1items.getD parentIdx defaultCodeItem).type == "class")
      = true := by
    have hq := classAncestorWalk_class arena itemMap st.items _ _ _ hwalk'
    rw [hcl parentIdx] at hq
    exact hq
  have hplen : parentIdx < p1items.length := by
    by_contra hge
    rw [getD_default_of_le _ _ _ (by omega)] at hpclass
    exact absurd hpclass (by decide)
  have hcond : ((reclassify scheme (p1items.getD idx defaultCodeItem)).type
        == "method"
      || (reclassify scheme (p1items.getD idx defaultCodeItem)).type
        == "function") = true := by
    rcases htype with h | h <;> rw [h] <;> rfl
  unfold pass2Step
  rw [hfind]
  dsimp only
  rw [hwalk']
  dsimp only
  rw [hitems]
  rw [if_pos hcond]
  refine ⟨?_, ?_, ?_⟩
  · rw [getD_set_self _ _ _ _ (by omega)]
    exact List.mem_append_right _ (by simp)
  · exact List.mem_append_right _ (by simp)
  · rw [getD_set_self _ _ _ _ (by omega)]

/-- Folding pass-2 steps over indices other than `i` preserves the
facts the attachment step needs about slot `i`. -/
theorem pass2_fold_pre (scheme : String) (arena : List SNode)
    (itemMap : List (Nat × Nat)) (p1items : List CodeItem) (i : Nat) :
    ∀ (l : List Nat) (st : Pass2State), i ∉ l →
      st.items.getD i defaultCodeItem = p1items.getD i defaultCodeItem →
      (∀ j, ((st.items.getD j defaultCodeItem).type == "class") =
        ((p1items.getD j defaultCodeItem).type == "class")) →
      st.items.length = p1items.length →
      st.childrenOf.length = p1items.length →
      (l.foldl (pass2Step scheme arena itemMap) st).items.getD i
          defaultCodeItem = p1items.getD i defaultCodeItem
      ∧ (∀ j, (((l.foldl (pass2Step scheme arena itemMap) st).items.getD j
            defaultCodeItem).type == "class") =
          ((p1items.getD j defaultCodeItem).type == "class"))
      ∧ (l.foldl (pass2Step scheme arena itemMap) st).items.length
          = p1items.length
      ∧ (l.foldl (pass2Step scheme arena itemMap) st).childrenOf.length
          = p1items.length := by
  intro l
  induction l with
  | nil => intro st _ h1 h2 h3 h4; exact ⟨h1, h2, h3, h4⟩
  | cons hd tl ih =>
      intro st hnot h1 h2 h3 h4
      have hhd : hd ≠ i := by
        intro he
        exact hnot (he ▸ List.mem_cons_self hd tl)
      refine ih _ (fun hm => hnot (List.mem_cons_of_mem hd hm)) ?_ ?_ ?_ ?_
      · rw [pass2Step_items_getD_ne scheme arena itemMap st hd i hhd]
        exact h1
      · intro j
        rw [pass2Step_class_status scheme arena itemMap st hd j]
        exact h2 j
      · rw [(pass2Step_lengths scheme arena itemMap st hd).1]
        exact h3
      · rw [(pass2Step_lengths scheme arena itemMap st hd).2]
        exact h4

/-- Folding pass-2 steps over indices other than `i` preserves an
established attachment. -/
theorem pass2_fold_post (scheme : String) (arena : List SNode)
    (itemMap : List (Nat × Nat)) (i pIdx dId : Nat) (v : CodeItem) :
    ∀ (l : List Nat) (st : Pass2State), i ∉ l →
      i ∈ st.childrenOf.getD pIdx [] →
      dId ∈ st.nested →
      st.items.getD i defaultCodeItem = v →
      i ∈ (l.foldl (pass2Step scheme arena itemMap) st).childrenOf.getD
          pIdx []
      ∧ dId ∈ (l.foldl (pass2Step scheme arena itemMap) st).nested
      ∧ (l.foldl (pass2Step scheme arena itemMap) st).items.getD i
          defaultCodeItem = v := by
  intro l
  induction l with
  | nil => intro st _ h1 h2 h3; exact ⟨h1, h2, h3⟩
  | cons hd tl ih =>
      intro st hnot h1 h2 h3
      have hhd : hd ≠ i := by
        intro he
        exact hnot (he ▸ List.mem_cons_self hd tl)
      obtain ⟨g1, g2, g3⟩ := pass2Step_preserves_post scheme arena itemMap st
        hd i pIdx dId v hhd h1 h2 h3
      exact ih _ (fun hm => hnot (List.mem_cons_of_mem hd hm)) g1 g2 g3

/-- The attachment facts hold after folding the pass-2 steps over any
index range that covers the item's index. -/
theorem pass2_range_post (scheme : String) (arena : List SNode)
    (itemMap : List (Nat × Nat)) (p1items : List CodeItem)
    (idx defId parentIdx : Nat)
    (hfind : itemMap.find? (fun e => e.2 == idx) = some (defId, idx))
    (hwalk : classAncestorWalk arena itemMap p1items (arena.length + 1)
      ((lookupNode arena defId).bind (fun n => n.parentId)) = some parentIdx)
    (htype :
      (reclassify scheme (p1items.getD idx defaultCodeItem)).type = "method"
      ∨ (reclassify scheme (p1items.getD idx defaultCodeItem)).type
          = "function")
    (hidx : idx < p1items.length) :
    ∀ (m : Nat), idx < m →
      idx ∈ ((List.range m).foldl (pass2Step scheme arena itemMap)
          { items := p1items,
            childrenOf := List.replicate p1items.length [],
            nested := [] }).childrenOf.getD parentIdx []
      ∧ defId ∈ ((List.range m).foldl (pass2Step scheme arena itemMap)
          { items := p1items,
            childrenOf := List.replicate p1items.length [],
            nested := [] }).nested
      ∧ ((List.range m).foldl (pass2Step scheme arena itemMap)
          { items := p1items,
            childrenOf := List.replicate p1items.length [],
            nested := [] }).items.getD idx defaultCodeItem
        = reclassify scheme (p1items.getD idx defaultCodeItem) := by
  intro m hm
  induction m, hm using Nat.le_induction with
  | base =>
      rw [List.range_succ, List.foldl_append]
      obtain ⟨g1, g2, g3, g4⟩ := pass2_fold_pre scheme arena itemMap p1items
        idx (List.range idx)
        { items := p1items,
          childrenOf := List.replicate p1items.length [],
          nested := [] }
        (by simp) rfl (fun _ => rfl) rfl (by simp)
      exact pass2Step_attaches scheme arena itemMap p1items _ idx defId
        parentIdx hfind hwalk htype hidx g1 g2 g3 g4
  | succ m hm ih =>
      rw [List.range_succ, List.foldl_append]
      obtain ⟨g1, g2, g3⟩ := ih
      exact pass2Step_preserves_post scheme arena itemMap _ m idx parentIdx
        defId _ (by omega) g1 g2 g3

/-- C4 counterexample: on the Python source `class A:` containing
`class B: ...`, the nested class `B` (definition node 4, lexically
inside class `A`'s definition node 1) is produced as an item but stays
in the top-level items list and is not a child of `A` — contradicting
the claim that every item nested inside a recognized class is attached
as a child and never appears top-level. -/
theorem c4_nested_class_stays_top_level :
    (extractStructure "python" pyNestedClassArena pyNestedClassCaptures
        "a.py" "h0" (fun s => s) "").items =
      [ { type := "class", name := "A", startLine := 1, endLine := 2,
          children := some [] },
        { type := "class", name := "B", startLine := 2, endLine := 2,
          children := some [] } ]
    ∧ (lookupNode pyNestedClassArena 4).bind (fun n => n.parentId) = some 3
    ∧ (lookupNode pyNestedClassArena 3).bind (fun n => n.parentId) = some 1
    ∧ mapGet (pass1 pyNestedClassArena pyNestedClassCaptures).itemMap 1
      = some 0
    ∧ mapGet (pass1 pyNestedClassArena pyNestedClassCaptures).itemMap 4
      = some 1 :=
  ⟨by decide, by decide, by decide, by decide, by decide⟩

/-- C4 (amended): in every extraction, an item whose definition node
has a nearest recognized-class ancestor and whose reclassified kind is
`method` or `function` (`function` → `method` for Python) is attached
as a child of that class's item and excluded from the top-level
`rootItems`; only nested `class` items stay top-level (shown by the
counterexample). -/
theorem c4_nesting_attaches_methods (scheme : String) (arena : List SNode)
    (captures : List Capture) (idx defId parentIdx : Nat)
    (hfind : (pass1 arena captures).itemMap.find? (fun e => e.2 == idx)
      = some (defId, idx))
    (hwalk : classAncestorWalk arena (pass1 arena captures).itemMap
      (pass1 arena captures).items (arena.length + 1)
      ((lookupNode arena defId).bind (fun n => n.parentId)) = some parentIdx)
    (htype : (reclassify scheme ((pass1 arena captures).items.getD idx
        defaultCodeItem)).type = "method"
      ∨ (reclassify scheme ((pass1 arena captures).items.getD idx
          defaultCodeItem)).type = "function")
    (hidx : idx < (pass1 arena captures).items.length) :
    idx ∈ (pass2 scheme arena (pass1 arena captures)).childrenOf.getD
        parentIdx []
    ∧ (pass2 scheme arena (pass1 arena captures)).items.getD idx
        defaultCodeItem
      = reclassify scheme ((pass1 arena captures).items.getD idx
          defaultCodeItem)
    ∧ idx ∉ rootIdxs (pass1 arena captures).itemMap
        (pass1 arena captures).items.length
        (pass2 scheme arena (pass1 arena captures)).nested := by
  obtain ⟨g1, g2, g3⟩ := pass2_range_post scheme arena
    (pass1 arena captures).itemMap (pass1 arena captures).items idx defId
    parentIdx hfind hwalk htype hidx (pass1 arena captures).items.length hidx
  refine ⟨g1, g3, ?_⟩
  intro hmem
  unfold rootIdxs at hmem
  have hcond := (List.mem_filter.mp hmem).2
  rw [hfind] at hcond
  dsimp only at hcond
  have : defId ∉ (pass2 scheme arena (pass1 arena captures)).nested := by
    intro hin
    rw [Bool.not_eq_true'] at hcond
    exact absurd hcond (by simp [hin])
  exact this g2

/-- Witness for the amended C4: the spec scenario `a.py` with `def foo`
and `class Bar` containing `def baz` — item 2 (`baz`, definition node
6) is attached under item 1 (`Bar`) and is not top-level. -/
theorem c4_nesting_attaches_methods_witness :
    2 ∈ (pass2 "python" pyBarArena
        (pass1 pyBarArena pyBarCaptures)).childrenOf.getD 1 []
    ∧ (pass2 "python" pyBarArena
        (pass1 pyBarArena pyBarCaptures)).items.getD 2 defaultCodeItem
      = reclassify "python"
          ((pass1 pyBarArena pyBarCaptures).items.getD 2 defaultCodeItem)
    ∧ 2 ∉ rootIdxs (pass1 pyBarArena pyBarCaptures).itemMap
        (pass1 pyBarArena pyBarCaptures).items.length
        (pass2 "python" pyBarArena
          (pass1 pyBarArena pyBarCaptures)).nested :=
  c4_nesting_attaches_methods "python" pyBarArena pyBarCaptures 2 6 1
    (by decide) (by decide) (by decide) (by decide)

-- === C5 ===

/-- C5: an unchanged file's prior structure node is NOT reused by
`buildTreeRecursive`.  In the concrete world: `proj/src/b.py` is
unchanged (current hash equals both the cache entry's and the prior
node's stored hash), but the previous tree — as `loadExistingTree`
returns it — is wrapped under the root directory's name, so the
existing-node lookup (`getNodeFromExistingTree` with root-relative
path parts) always misses: with a failing parser the file vanishes
from the tree, and with a working extractor it is re-extracted (its
path lands in `updatedPaths`) instead of reusing the prior node.  The
final conjunct shows the reuse branch itself is correct: with the
unwrapped previous tree the prior node is returned verbatim. -/
theorem c5_unchanged_file_not_reused :
    (hasFileChanged hashEx (fun _ => some "x") "proj/src/b.py"
      scanCacheEx).1 = (false, "hx")
    ∧ priorNodeEx.file_hash = "hx"
    ∧ (buildTreeRec hashEx (fun _ _ _ => none) 1 (fun _ => false) ["proj"]
        (some priorTreeEx) scanEntriesEx [] scanCacheEx []).1 = []
    ∧ (buildTreeRec hashEx (fun _ _ _ => some freshNodeEx) 1 (fun _ => false)
        ["proj"] (some priorTreeEx) scanEntriesEx [] scanCacheEx []).1 =
      [("src", DirNode.dir [("b.py", DirNode.file freshNodeEx)])]
    ∧ (buildTreeRec hashEx (fun _ _ _ => some freshNodeEx) 1 (fun _ => false)
        ["proj"] (some priorTreeEx) scanEntriesEx [] scanCacheEx []).2.2 =
      ["src/b.py"]
    ∧ (buildTreeRec hashEx (fun _ _ _ => none) 1 (fun _ => false) ["proj"]
        (some (DirNode.dir
          [("src", DirNode.dir [("b.py", DirNode.file priorNodeEx)])]))
        scanEntriesEx [] scanCacheEx []).1 =
      [("src", DirNode.dir [("b.py", DirNode.file priorNodeEx)])] :=
  ⟨rfl, rfl, rfl, rfl, rfl, rfl⟩

-- === C10 ===

/-- C10: calling `generateDocumentation` on a path whose file exists
but whose content is empty or whitespace-only removes the in-memory
documentation record (the lookup afterwards is `none`), removes the
persisted per-file artifact whenever a record existed, and rejects
with the skipped-empty-file error — never producing or keeping a
record for the file.  (`hidem` states that the path is stable under
normalization, which holds for every workspace-relative path.) -/
theorem c10_generateDocumentation_empty_file (env : GenEnv)
    (ws p content : String) (st : DocState)
    (hread : env.read (ws ++ "/" ++ normalizePath ws p) = some content)
    (hempty : strTrim content = "")
    (hidem : normalizePath ws (normalizePath ws p) = normalizePath ws p) :
    assocGet (generateDocumentation env ws st p).1.files
      (normalizePath ws p) = none
    ∧ (∀ d, assocGet st.files (normalizePath ws p) = some d →
        assocGet (generateDocumentation env ws st p).1.artifacts
          (safeBaseName (normalizePath ws p)) = none)
    ∧ (generateDocumentation env ws st p).2
      = Except.error "Skipped empty file" := by
  unfold generateDocumentation
  dsimp only
  rw [hread]
  dsimp only
  rw [hempty, if_pos (beq_self_eq_true "")]
  refine ⟨?_, ?_, rfl⟩
  · unfold removeDocumentation
    rw [hidem]
    dsimp only
    cases hc : assocGet st.files (normalizePath ws p) with
    | some d =>
        dsimp only
        exact assocGet_assocDel_self _ _
    | none =>
        dsimp only
        exact hc
  · intro d hd
    unfold removeDocumentation
    rw [hidem]
    dsimp only
    rw [hd]
    exact assocGet_assocDel_self _ _

/-- Witness for C10: a whitespace-only `empty.ts` with an existing
record and artifact. -/
theorem c10_generateDocumentation_empty_file_witness :
    assocGet (generateDocumentation
        { read := fun _ => some "  ", ai := fun _ => Except.ok "s",
          mtime := fun _ => 0, gitHash := none, now := "t" }
        "ws"
        { files := [("empty.ts",
            { path := "empty.ts", lastUpdated := "", summary := "",
              type := "", hash := none, preview := "",
              lastModified := 0 })],
          artifacts := [("empty.ts",
            { path := "empty.ts", lastUpdated := "", summary := "",
              type := "", hash := none, preview := "",
              lastModified := 0 })] }
        "empty.ts").1.files (normalizePath "ws" "empty.ts") = none
    ∧ (∀ d, assocGet
        ({ files := [("empty.ts",
            { path := "empty.ts", lastUpdated := "", summary := "",
              type := "", hash := none, preview := "",
              lastModified := 0 })],
           artifacts := [("empty.ts",
            { path := "empty.ts", lastUpdated := "", summary := "",
              type := "", hash := none, preview := "",
              lastModified := 0 })] } : DocState).files
          (normalizePath "ws" "empty.ts") = some d →
        assocGet (generateDocumentation
          { read := fun _ => some "  ", ai := fun _ => Except.ok "s",
            mtime := fun _ => 0, gitHash := none, now := "t" }
          "ws"
          { files := [("empty.ts",
              { path := "empty.ts", lastUpdated := "", summary := "",
                type := "", hash := none, preview := "",
                lastModified := 0 })],
            artifacts := [("empty.ts",
              { path := "empty.ts", lastUpdated := "", summary := "",
                type := "", hash := none, preview := "",
                lastModified := 0 })] }
          "empty.ts").1.artifacts
          (safeBaseName (normalizePath "ws" "empty.ts")) = none)
    ∧ (generateDocumentation
        { read := fun _ => some "  ", ai := fun _ => Except.ok "s",
          mtime := fun _ => 0, gitHash := none, now := "t" }
        "ws"
        { files := [("empty.ts",
            { path := "empty.ts", lastUpdated := "", summary := "",
              type := "", hash := none, preview := "",
              lastModified := 0 })],
          artifacts := [("empty.ts",
            { path := "empty.ts", lastUpdated := "", summary := "",
              type := "", hash := none, preview := "",
              lastModified := 0 })] }
        "empty.ts").2 = Except.error "Skipped empty file" :=
  c10_generateDocumentation_empty_file
    { read := fun _ => some "  ", ai := fun _ => Except.ok "s",
      mtime := fun _ => 0, gitHash := none, now := "t" }
    "ws" "empty.ts" "  "
    { files := [("empty.ts",
        { path := "empty.ts", lastUpdated := "", summary := "",
          type := "", hash := none, preview := "",
          lastModified := 0 })],
      artifacts := [("empty.ts",
        { path := "empty.ts", lastUpdated := "", summary := "",
          type := "", hash := none, preview := "",
          lastModified := 0 })] }
    rfl (by decide) (by decide)

-- === C8 ===

/-- A generation call for one path never touches another path's
in-memory record. -/
theorem generateDocumentation_files_other (env : GenEnv) (ws : String)
    (st : DocState) (p k : String)
    (hstable : normalizePath ws (normalizePath ws p) = normalizePath ws p)
    (hne : (k == normalizePath ws p) = false) :
    assocGet (generateDocumentation env ws st p).1.files k
      = assocGet st.files k := by
  unfold generateDocumentation
  dsimp only
  cases env.read (ws ++ "/" ++ normalizePath ws p) with
  | none =>
      dsimp only
      unfold removeDocumentation
      rw [hstable]
      dsimp only
      cases assocGet st.files (normalizePath ws p) with
      | some d =>
          dsimp only
          exact assocGet_assocDel_ne _ _ _ hne
      | none => rfl
  | some content =>
      dsimp only
      split
      · unfold removeDocumentation
        rw [hstable]
        dsimp only
        cases assocGet st.files (normalizePath ws p) with
        | some d =>
            dsimp only
            exact assocGet_assocDel_ne _ _ _ hne
        | none => rfl
      · cases env.ai (ws ++ "/" ++ normalizePath ws p) with
        | error e => rfl
        | ok s =>
            dsimp only
            exact assocGet_assocSet_ne _ _ _ _ hne

/-- A successful generation call stores exactly the record `mkDoc`
builds for the normalized path. -/
theorem generateDocumentation_files_success (env : GenEnv) (ws : String)
    (st : DocState) (p c s : String)
    (hread : env.read (ws ++ "/" ++ normalizePath ws p) = some c)
    (hne : ¬ strTrim c = "")
    (hai : env.ai (ws ++ "/" ++ normalizePath ws p) = Except.ok s) :
    assocGet (generateDocumentation env ws st p).1.files (normalizePath ws p)
      = some (mkDoc env ws (normalizePath ws p) s) := by
  unfold generateDocumentation
  dsimp only
  rw [hread]
  dsimp only
  rw [if_neg (fun hcontra => hne (by simpa using hcontra)), hai]
  dsimp only
  exact assocGet_assocSet_self _ _ _

/-- After a batch, key `k` holds its success record provided either
some batch item normalizes to `k` (and `k`'s read and generation
succeed) or the record was already there. -/
theorem processBatch_files_key (env : GenEnv) (ws k c s : String)
    (hread : env.read (ws ++ "/" ++ k) = some c)
    (hne : ¬ strTrim c = "")
    (hai : env.ai (ws ++ "/" ++ k) = Except.ok s) :
    ∀ (batch : List String) (st : DocState),
      (∀ p ∈ batch,
        normalizePath ws (normalizePath ws p) = normalizePath ws p) →
      (k ∈ batch.map (normalizePath ws) ∨
        assocGet st.files k = some (mkDoc env ws k s)) →
      assocGet (processBatch env ws st batch).files k
        = some (mkDoc env ws k s) := by
  intro batch
  induction batch with
  | nil =>
      intro st _ hin
      rcases hin with h | h
      · simp at h
      · exact h
  | cons p rest ih =>
      intro st hidem hin
      have hstep : processBatch env ws st (p :: rest)
          = processBatch env ws ((generateDocumentation env ws st p).1)
            rest := rfl
      rw [hstep]
      by_cases hpk : normalizePath ws p = k
      · refine ih _ (fun x hx => hidem x (List.mem_cons_of_mem p hx))
          (Or.inr ?_)
        rw [← hpk] at hread hai ⊢
        exact generateDocumentation_files_success env ws st p c s hread hne
          hai
      · refine ih _ (fun x hx => hidem x (List.mem_cons_of_mem p hx)) ?_
        rcases hin with h | h
        · rw [List.map_cons] at h
          rcases List.mem_cons.mp h with h1 | h1
          · exact absurd h1.symm hpk
          · exact Or.inl h1
        · refine Or.inr ?_
          rw [generateDocumentation_files_other env ws st p k
            (hidem p (List.mem_cons_self p rest))
            (beq_eq_false_iff_ne.mpr (fun he => hpk he.symm))]
          exact h

/-- The drain loop: once established (or establishable by a queued
item), a successful path's record survives to the end of the queue. -/
theorem drainQueue_files_key (env : GenEnv) (ws k c s : String)
    (hread : env.read (ws ++ "/" ++ k) = some c)
    (hne : ¬ strTrim c = "")
    (hai : env.ai (ws ++ "/" ++ k) = Except.ok s) :
    ∀ (fuel : Nat) (queue : List String) (st : DocState),
      queue.length ≤ fuel →
      (∀ p ∈ queue,
        normalizePath ws (normalizePath ws p) = normalizePath ws p) →
      (k ∈ queue.map (normalizePath ws) ∨
        assocGet st.files k = some (mkDoc env ws k s)) →
      assocGet (drainQueue env ws fuel st queue).files k
        = some (mkDoc env ws k s) := by
  intro fuel
  induction fuel with
  | zero =>
      intro queue st hlen hidem hin
      have hq : queue = [] := List.length_eq_zero.mp (by omega)
      subst hq
      rcases hin with h | h
      · simp at h
      · exact h
  | succ f ih =>
      intro queue st hlen hidem hin
      cases queue with
      | nil =>
          rcases hin with h | h
          · simp at h
          · exact h
      | cons p rest =>
          have hstep : drainQueue env ws (f + 1) st (p :: rest)
              = drainQueue env ws f
                (processBatch env ws st
                  ((p :: rest).take MAX_CONCURRENT_GENERATIONS))
                ((p :: rest).drop MAX_CONCURRENT_GENERATIONS) := rfl
          rw [hstep]
          have hmax : MAX_CONCURRENT_GENERATIONS = 3 := rfl
          refine ih _ _ ?_ ?_ ?_
          · rw [List.length_drop]
            have := hlen
            simp only [List.length_cons] at this
            omega
          · intro x hx
            exact hidem x (List.drop_subset _ _ hx)
          · rcases hin with h | h
            · rw [← List.take_append_drop MAX_CONCURRENT_GENERATIONS
                (p :: rest), List.map_append] at h
              rcases List.mem_append.mp h with h1 | h1
              · refine Or.inr (processBatch_files_key env ws k c s hread hne
                  hai _ st ?_ (Or.inl h1))
                intro x hx
                exact hidem x (List.take_subset _ _ hx)
              · exact Or.inl h1
            · refine Or.inr (processBatch_files_key env ws k c s hread hne
                hai _ st ?_ (Or.inr h))
              intro x hx
              exact hidem x (List.take_subset _ _ hx)

/-- C8: within the drained queue, a generation failure for one item is
caught per item and does not abort the batch or the queue — every
queued path whose own read and generation succeed ends up with its
documentation record after `processDocumentationQueue`, whatever
happens to the other items (including failures in the same batch), and
the drain loop reaches every later batch. -/
theorem c8_queue_failure_isolation (env : GenEnv) (ws : String)
    (st : DocState) (queue : List String) (q c s : String)
    (hq : q ∈ queue)
    (hidem : ∀ p ∈ queue,
      normalizePath ws (normalizePath ws p) = normalizePath ws p)
    (hread : env.read (ws ++ "/" ++ normalizePath ws q) = some c)
    (hne : ¬ strTrim c = "")
    (hai : env.ai (ws ++ "/" ++ normalizePath ws q) = Except.ok s) :
    assocGet (processDocumentationQueue env ws st queue).files
      (normalizePath ws q) = some (mkDoc env ws (normalizePath ws q) s) := by
  unfold processDocumentationQueue
  exact drainQueue_files_key env ws (normalizePath ws q) c s hread hne hai
    queue.length queue st (le_refl _) hidem
    (Or.inl (List.mem_map_of_mem _ hq))

/-- Witness for C8: a three-item batch in which the middle item's read
fails; the first item still receives its record. -/
theorem c8_queue_failure_isolation_witness :
    assocGet (processDocumentationQueue
        { read := fun pa => if pa == "ws/bad.ts" then none
            else some "let x = 1",
          ai := fun _ => Except.ok "sum", mtime := fun _ => 7,
          gitHash := none, now := "t" }
        "ws" { files := [], artifacts := [] }
        ["a.ts", "bad.ts", "c.ts"]).files (normalizePath "ws" "a.ts")
      = some (mkDoc
          { read := fun pa => if pa == "ws/bad.ts" then none
              else some "let x = 1",
            ai := fun _ => Except.ok "sum", mtime := fun _ => 7,
            gitHash := none, now := "t" }
          "ws" (normalizePath "ws" "a.ts") "sum") :=
  c8_queue_failure_isolation
    { read := fun pa => if pa == "ws/bad.ts" then none
        else some "let x = 1",
      ai := fun _ => Except.ok "sum", mtime := fun _ => 7,
      gitHash := none, now := "t" }
    "ws" { files := [], artifacts := [] } ["a.ts", "bad.ts", "c.ts"]
    "a.ts" "let x = 1" "sum" (by decide) (by decide) rfl (by decide) rfl
